import Mathlib

/-!
Verification of the magnetic-field formula library `HelmholtzCoil.py`.

The module computes magnetic fields of circular current loops, Helmholtz
coils and anti-Helmholtz coils.  Every function is a pure real-valued
formula; we embed each one over `ℝ`, with the complete elliptic integrals
K and E given by their defining integrals in the parameter convention
m = k^2 (the convention of `scipy.special.ellipk` / `ellipe`, which the
source calls).
-/

namespace HelmholtzCoil

noncomputable section

/-- Complete elliptic integral of the first kind, `scipy.special.ellipk`.
The argument is the parameter m = k^2 (not the modulus k): the integrand
contains `m * sin θ ^ 2`, exactly as scipy documents. -/
def ellipk (m : ℝ) : ℝ :=
  ∫ θ in (0:ℝ)..(Real.pi / 2), 1 / Real.sqrt (1 - m * Real.sin θ ^ 2)

/-- Complete elliptic integral of the second kind, `scipy.special.ellipe`,
again in the parameter convention m = k^2. -/
def ellipe (m : ℝ) : ℝ :=
  ∫ θ in (0:ℝ)..(Real.pi / 2), Real.sqrt (1 - m * Real.sin θ ^ 2)

/-- Vacuum permeability, `mu0 = 4*np.pi*1e-7` (line 27 of the source). -/
def mu0 : ℝ := 4 * Real.pi * 1e-7

/-- `FieldLoopBz(z, rho, R=1)`, lines 35-39 of the source (the default
`R = 1` of the Python signature is passed explicitly here). -/
def FieldLoopBz (z rho R : ℝ) : ℝ :=
  let ksq := 4 * R * rho / ((R + rho) ^ 2 + z ^ 2)
  let K := ellipk ksq
  let E := ellipe ksq
  R / (Real.pi * Real.sqrt ((R + rho) ^ 2 + z ^ 2)) *
    (K + E * (R ^ 2 - rho ^ 2 - z ^ 2) / ((R - rho) ^ 2 + z ^ 2))

/-- `MagneticFieldLoopBz(z, rho, R, I)`, lines 42-44. -/
def MagneticFieldLoopBz (z rho R I : ℝ) : ℝ :=
  mu0 * I / (2 * R) * FieldLoopBz z rho R

/-- `FieldLoopBrho(z, rho, R=1)`, lines 47-53: explicit special case
returning 0 when `rho == 0`, else the elliptic-integral closed form. -/
def FieldLoopBrho (z rho R : ℝ) : ℝ :=
  if rho = 0 then 0
  else
    let ksq := 4 * R * rho / ((R + rho) ^ 2 + z ^ 2)
    let K := ellipk ksq
    let E := ellipe ksq
    (R * z) / (Real.pi * rho * Real.sqrt ((R + rho) ^ 2 + z ^ 2)) *
      (-K + E * (R ^ 2 + rho ^ 2 + z ^ 2) / ((R - rho) ^ 2 + z ^ 2))

/-- `MagneticFieldLoopBrho(z, rho, R, I)`, lines 56-58. -/
def MagneticFieldLoopBrho (z rho R I : ℝ) : ℝ :=
  mu0 * I / (2 * R) * FieldLoopBrho z rho R

/-- `FieldLoopOnAxis(z, R=1)`, lines 61-62.  The Python exponent `(3/2)`
is the float `1.5`, embedded as the real power `(3 : ℝ) / 2`. -/
def FieldLoopOnAxis (z R : ℝ) : ℝ :=
  R ^ 3 / (R ^ 2 + z ^ 2) ^ ((3 : ℝ) / 2)

/-- `MagneticFieldLoopOnAxis(z, R, I)`, lines 65-67. -/
def MagneticFieldLoopOnAxis (z R I : ℝ) : ℝ :=
  mu0 * I / (2 * R) * FieldLoopOnAxis z R

/-- Cross product of 3-vectors, `np.cross` on length-3 arrays. -/
def cross3 (a b : ℝ × ℝ × ℝ) : ℝ × ℝ × ℝ :=
  (a.2.1 * b.2.2 - a.2.2 * b.2.1,
   a.2.2 * b.1 - a.1 * b.2.2,
   a.1 * b.2.1 - a.2.1 * b.1)

/-- Euclidean norm of a 3-vector, `np.linalg.norm`. -/
def norm3 (v : ℝ × ℝ × ℝ) : ℝ :=
  Real.sqrt (v.1 ^ 2 + v.2.1 ^ 2 + v.2.2 ^ 2)

/-- Componentwise division of a 3-vector by a scalar. -/
def div3 (v : ℝ × ℝ × ℝ) (c : ℝ) : ℝ × ℝ × ℝ :=
  (v.1 / c, v.2.1 / c, v.2.2 / c)

/-- Contribution `dbf` of segment `i` in the loop of
`FieldLoopDiscrete` (lines 76-83 of the source). -/
def loopSegmentField (z rho : ℝ) (N i : ℕ) : ℝ × ℝ × ℝ :=
  let theta0 := (i : ℝ) * 2 * Real.pi / (N : ℝ)
  let theta1 := theta0 + 2 * Real.pi / (N : ℝ)
  let dl := (Real.cos theta1 - Real.cos theta0,
             Real.sin theta1 - Real.sin theta0, (0 : ℝ))
  let s := (rho - Real.cos theta0, -Real.sin theta0, z)
  let ns := norm3 s
  div3 (cross3 dl s) (ns ^ 3)

/-- `FieldLoopDiscrete(z, rho, N=360)`, lines 70-85: returns the zero
vector when `z == 0 and abs(rho) == 1`, else accumulates the `N` segment
contributions starting from the zero vector and divides by `2*np.pi`. -/
def FieldLoopDiscrete (z rho : ℝ) (N : ℕ) : ℝ × ℝ × ℝ :=
  if z = 0 ∧ |rho| = 1 then (0, 0, 0)
  else div3 (∑ i in Finset.range N, loopSegmentField z rho N i) (2 * Real.pi)

/-- `FieldHelmholtzOnAxis(z, R=1)`, lines 93-94: algebraically explicit
sum of the two displaced on-axis closed forms. -/
def FieldHelmholtzOnAxis (z R : ℝ) : ℝ :=
  R ^ 3 / (R ^ 2 + (z + R / 2) ^ 2) ^ ((3 : ℝ) / 2) +
    R ^ 3 / (R ^ 2 + (z - R / 2) ^ 2) ^ ((3 : ℝ) / 2)

/-- `MagneticFieldHelmholtzOnAxis(z, R, I)`, lines 97-99. -/
def MagneticFieldHelmholtzOnAxis (z R I : ℝ) : ℝ :=
  mu0 * I / (2 * R) * FieldHelmholtzOnAxis z R

/-- `FieldHelmholtzBz(z, rho, R=1)`, lines 103-104. -/
def FieldHelmholtzBz (z rho R : ℝ) : ℝ :=
  FieldLoopBz (z + R / 2) rho R + FieldLoopBz (z - R / 2) rho R

/-- `MagneticFieldHelmholtzBz(z, rho, R, I)`, lines 107-108. -/
def MagneticFieldHelmholtzBz (z rho R I : ℝ) : ℝ :=
  mu0 * I / (2 * R) * FieldHelmholtzBz z rho R

/-- The name `FieldLoopBro` referenced on lines 113 and 145 of the source
is defined nowhere in the module (nor in its imports `numpy`, `scipy`):
it is an unbound name, so evaluating it raises `NameError` at call time.
We model the module-level lookup of this name as `none`. -/
def FieldLoopBro : Option (ℝ → ℝ → ℝ → ℝ) := none

/-- `FieldHelmholtzBrho(z, rho, R=1)`, lines 112-113: the first summand
calls the unbound name `FieldLoopBro`, so the call raises `NameError`
(`none`) instead of producing a number. -/
def FieldHelmholtzBrho (z rho R : ℝ) : Option ℝ :=
  Option.map (fun f => f (z + R / 2) rho R + FieldLoopBrho (z - R / 2) rho R)
    FieldLoopBro

/-- `MagneticFieldHelmholtzBrho(z, rho, R, I)`, lines 116-117; the
`NameError` of the callee propagates. -/
def MagneticFieldHelmholtzBrho (z rho R I : ℝ) : Option ℝ :=
  Option.map (fun b => mu0 * I / (2 * R) * b) (FieldHelmholtzBrho z rho R)

/-- `FieldAntiHelmholtzOnAxis(z, R=1)`, lines 125-126. -/
def FieldAntiHelmholtzOnAxis (z R : ℝ) : ℝ :=
  R ^ 3 / (R ^ 2 + (z + R / 2) ^ 2) ^ ((3 : ℝ) / 2) -
    R ^ 3 / (R ^ 2 + (z - R / 2) ^ 2) ^ ((3 : ℝ) / 2)

/-- `MagneticFieldAntiHelmholtzOnAxis(z, R, I)`, lines 129-131. -/
def MagneticFieldAntiHelmholtzOnAxis (z R I : ℝ) : ℝ :=
  mu0 * I / (2 * R) * FieldAntiHelmholtzOnAxis z R

/-- `FieldAntiHelmholtzBz(z, rho, R=1)`, lines 135-136. -/
def FieldAntiHelmholtzBz (z rho R : ℝ) : ℝ :=
  FieldLoopBz (z + R / 2) rho R - FieldLoopBz (z - R / 2) rho R

/-- `MagneticFieldAntiHelmholtzBz(z, rho, R, I)`, lines 139-140. -/
def MagneticFieldAntiHelmholtzBz (z rho R I : ℝ) : ℝ :=
  mu0 * I / (2 * R) * FieldAntiHelmholtzBz z rho R

/-- `FieldAntiHelmholtzBrho(z, rho, R=1)`, lines 144-145: again the first
term calls the unbound name `FieldLoopBro`. -/
def FieldAntiHelmholtzBrho (z rho R : ℝ) : Option ℝ :=
  Option.map (fun f => f (z + R / 2) rho R - FieldLoopBrho (z - R / 2) rho R)
    FieldLoopBro

/-- `MagneticFieldAntiHelmholtzBrho(z, rho, R, I)`, lines 148-149. -/
def MagneticFieldAntiHelmholtzBrho (z rho R I : ℝ) : Option ℝ :=
  Option.map (fun b => mu0 * I / (2 * R) * b) (FieldAntiHelmholtzBrho z rho R)

/-- The axial loop field exactly as the specification describes it:
compute `ksq = 4*R*rho/((R+rho)^2+z^2)`, evaluate K and E at the
parameter m = ksq, and combine per the closed-form solution. -/
def FieldLoopBzSpec (z rho R : ℝ) : ℝ :=
  let m := 4 * R * rho / ((R + rho) ^ 2 + z ^ 2)
  R / (Real.pi * Real.sqrt ((R + rho) ^ 2 + z ^ 2)) *
    (ellipk m + ellipe m * (R ^ 2 - rho ^ 2 - z ^ 2) / ((R - rho) ^ 2 + z ^ 2))

end

/-! ### Helper lemmas -/

/-- K(0) = π/2: the integrand collapses to the constant 1. -/
theorem ellipk_zero : ellipk 0 = Real.pi / 2 := by
  unfold ellipk
  simp

/-- E(0) = π/2: the integrand collapses to the constant 1. -/
theorem ellipe_zero : ellipe 0 = Real.pi / 2 := by
  unfold ellipe
  simp

/-- The axial loop field is even in z, because z enters the closed form
only through z^2. -/
theorem FieldLoopBz_even (z rho R : ℝ) :
    FieldLoopBz (-z) rho R = FieldLoopBz z rho R := by
  simp only [FieldLoopBz, neg_sq]

/-! ### Claims -/

/-- Claim C1 fails on the source code: `FieldHelmholtzBrho` and
`FieldAntiHelmholtzBrho` do NOT produce finite, non-error results, even
at representative non-singular inputs such as z = 0, rho = 1/2, R = 1,
because lines 113 and 145 reference the misspelled name `FieldLoopBro`,
which is unbound, so evaluation raises `NameError` (modelled `none`). -/
theorem helmholtzBrho_raises_name_error :
    FieldHelmholtzBrho 0 (1 / 2) 1 = none ∧
      FieldAntiHelmholtzBrho 0 (1 / 2) 1 = none :=
  ⟨rfl, rfl⟩

/-- Claim C2: for every z, rho and R, `FieldLoopBz` computes
`ksq = 4*R*rho/((R+rho)^2+z^2)`, evaluates K and E at the parameter
m = ksq (the modulus squared, not the modulus itself — our `ellipk` and
`ellipe` are defined in the parameter convention), and returns
`R/(pi*sqrt((R+rho)^2+z^2)) * (K + E*(R^2-rho^2-z^2)/((R-rho)^2+z^2))`. -/
theorem fieldLoopBz_matches_spec (z rho R : ℝ) :
    FieldLoopBz z rho R = FieldLoopBzSpec z rho R := rfl

/-- Claim C3: for every z and every R > 0, the general elliptic-integral
formula restricted to rho = 0 (where K(0) = E(0) = π/2) coincides with
the independent on-axis closed form `R^3/(R^2+z^2)^(3/2)`. -/
theorem fieldLoopBz_on_axis (z R : ℝ) (hR : 0 < R) :
    FieldLoopBz z 0 R = FieldLoopOnAxis z R := by
  have hS : (0 : ℝ) < R ^ 2 + z ^ 2 := by positivity
  have hsq : (0 : ℝ) < Real.sqrt (R ^ 2 + z ^ 2) := Real.sqrt_pos.mpr hS
  have h32 : (R ^ 2 + z ^ 2) ^ ((3 : ℝ) / 2)
      = (R ^ 2 + z ^ 2) * Real.sqrt (R ^ 2 + z ^ 2) := by
    rw [show (3 : ℝ) / 2 = 1 + 1 / 2 by norm_num, Real.rpow_add hS,
      Real.rpow_one, ← Real.sqrt_eq_rpow]
  simp only [FieldLoopBz, FieldLoopOnAxis]
  rw [h32]
  norm_num [ellipk_zero, ellipe_zero]
  field_simp
  ring

/-- Claim C3 witness at z = 1, R = 1. -/
theorem fieldLoopBz_on_axis_witness :
    (0 : ℝ) < 1 ∧ FieldLoopBz 1 0 1 = FieldLoopOnAxis 1 1 :=
  ⟨one_pos, fieldLoopBz_on_axis 1 1 one_pos⟩

/-- Claim C4: for every z and R, `FieldLoopBrho(z, 0, R)` returns exactly
0, via the explicit `rho == 0` special case that bypasses the `1/rho`
factor of the closed form. -/
theorem fieldLoopBrho_at_zero (z R : ℝ) : FieldLoopBrho z 0 R = 0 := by
  unfold FieldLoopBrho
  rw [if_pos rfl]

/-- Claim C5: the axial loop field has even symmetry about the loop
plane, `FieldLoopBz(z, rho, R) = FieldLoopBz(-z, rho, R)`. -/
theorem fieldLoopBz_symm (z rho R : ℝ) :
    FieldLoopBz z rho R = FieldLoopBz (-z) rho R :=
  (FieldLoopBz_even z rho R).symm

/-- Claim C6: the on-axis anti-Helmholtz field is odd in z and vanishes
at the midpoint z = 0. -/
theorem antiHelmholtzOnAxis_odd (z R : ℝ) :
    FieldAntiHelmholtzOnAxis z R = -FieldAntiHelmholtzOnAxis (-z) R ∧
      FieldAntiHelmholtzOnAxis 0 R = 0 := by
  constructor
  · unfold FieldAntiHelmholtzOnAxis
    have h1 : R ^ 2 + (-z + R / 2) ^ 2 = R ^ 2 + (z - R / 2) ^ 2 := by ring
    have h2 : R ^ 2 + (-z - R / 2) ^ 2 = R ^ 2 + (z + R / 2) ^ 2 := by ring
    rw [h1, h2]
    ring
  · unfold FieldAntiHelmholtzOnAxis
    have h : R ^ 2 + ((0 : ℝ) - R / 2) ^ 2 = R ^ 2 + (0 + R / 2) ^ 2 := by ring
    rw [h]
    ring

/-- Claim C7: at the symmetric midpoint z = 0 the algebraically explicit
two-loop on-axis formula equals twice the single-loop on-axis formula
evaluated at R/2. -/
theorem helmholtzOnAxis_superposition (R : ℝ) :
    FieldHelmholtzOnAxis 0 R = 2 * FieldLoopOnAxis (R / 2) R := by
  unfold FieldHelmholtzOnAxis FieldLoopOnAxis
  have h1 : R ^ 2 + ((0 : ℝ) + R / 2) ^ 2 = R ^ 2 + (R / 2) ^ 2 := by ring
  have h2 : R ^ 2 + ((0 : ℝ) - R / 2) ^ 2 = R ^ 2 + (R / 2) ^ 2 := by ring
  rw [h1, h2]
  ring

/-- Claim C8: every `MagneticField*` function equals
`mu0*I/(2R)` times its `Field*` counterpart on the same geometric
arguments, where mu0 is the fixed constant `4*pi*1e-7` (for the two
radial composites, whose `Field*` counterparts raise `NameError`, the
scaling maps over the propagated error). -/
theorem magneticField_scaling (z rho R I : ℝ) :
    MagneticFieldLoopOnAxis z R I
        = 4 * Real.pi * 1e-7 * I / (2 * R) * FieldLoopOnAxis z R ∧
      MagneticFieldLoopBz z rho R I
        = 4 * Real.pi * 1e-7 * I / (2 * R) * FieldLoopBz z rho R ∧
      MagneticFieldLoopBrho z rho R I
        = 4 * Real.pi * 1e-7 * I / (2 * R) * FieldLoopBrho z rho R ∧
      MagneticFieldHelmholtzOnAxis z R I
        = 4 * Real.pi * 1e-7 * I / (2 * R) * FieldHelmholtzOnAxis z R ∧
      MagneticFieldHelmholtzBz z rho R I
        = 4 * Real.pi * 1e-7 * I / (2 * R) * FieldHelmholtzBz z rho R ∧
      MagneticFieldAntiHelmholtzOnAxis z R I
        = 4 * Real.pi * 1e-7 * I / (2 * R) * FieldAntiHelmholtzOnAxis z R ∧
      MagneticFieldAntiHelmholtzBz z rho R I
        = 4 * Real.pi * 1e-7 * I / (2 * R) * FieldAntiHelmholtzBz z rho R ∧
      MagneticFieldHelmholtzBrho z rho R I
        = Option.map (fun b => 4 * Real.pi * 1e-7 * I / (2 * R) * b)
            (FieldHelmholtzBrho z rho R) ∧
      MagneticFieldAntiHelmholtzBrho z rho R I
        = Option.map (fun b => 4 * Real.pi * 1e-7 * I / (2 * R) * b)
            (FieldAntiHelmholtzBrho z rho R) :=
  ⟨rfl, rfl, rfl, rfl, rfl, rfl, rfl, rfl, rfl⟩

/-- Claim C9: whenever |rho| = 1 and z = 0 the discretized loop
evaluator returns the zero 3-component vector, for every segment count
N, via the early degenerate-case return. -/
theorem fieldLoopDiscrete_degenerate (rho : ℝ) (N : ℕ) (h : |rho| = 1) :
    FieldLoopDiscrete 0 rho N = (0, 0, 0) := by
  unfold FieldLoopDiscrete
  rw [if_pos ⟨rfl, h⟩]

/-- Claim C9 witness at rho = 1, N = 360 (the source default). -/
theorem fieldLoopDiscrete_degenerate_witness :
    |(1 : ℝ)| = 1 ∧ FieldLoopDiscrete 0 1 360 = (0, 0, 0) :=
  ⟨abs_one, fieldLoopDiscrete_degenerate 1 360 abs_one⟩

/-- Claim C10: at the midplane z = 0 the off-axis anti-Helmholtz axial
field vanishes for every rho and R, because it is the difference
`FieldLoopBz(R/2, rho, R) - FieldLoopBz(-R/2, rho, R)` and `FieldLoopBz`
is even in its first argument. -/
theorem antiHelmholtzBz_midplane (rho R : ℝ) :
    FieldAntiHelmholtzBz 0 rho R = 0 := by
  unfold FieldAntiHelmholtzBz
  rw [zero_add, zero_sub, FieldLoopBz_even, sub_self]

end HelmholtzCoil
